import Mathlib

/-!
Verification development for the isometric coaster track-drawing core
(`trackDrawing.ts`).  The geometric pipeline is embedded shallowly:

* exact affine geometry (tile projection, edge-midpoint anchors, quadratic
  Bézier point/tangent, chain-lift interpolation) is modelled over `ℚ`,
  since the source only performs field operations with decimal constants;
* quantities obtained through `Math.hypot` / `Math.sqrt` / trigonometry
  (normalised perpendiculars, segment lengths, loop sampling) are modelled
  over `ℝ` with `Real.sqrt`, `Real.sin`, `Real.cos`, `Real.pi`.

Definitions keep the source's names and formulas; each models exactly one
expression or statement block of the source file.
-/

set_option maxHeartbeats 1000000

namespace IsoCoaster

/-- Screen-space point (the `Point` interface of the source). -/
structure Pt where
  x : ℚ
  y : ℚ
deriving DecidableEq

-- Constants from the source file.
def TILE_WIDTH : ℚ := 64
def heightRatio : ℚ := 0.60
def TILE_HEIGHT : ℚ := TILE_WIDTH * heightRatio
def TRACK_WIDTH : ℚ := 8
def TIE_LENGTH : ℚ := 12
def TIE_SPACING : ℚ := 8
def HEIGHT_UNIT : ℚ := 20

/-- `gridToScreen`: convert grid coordinates to screen position. -/
def gridToScreen (gridX gridY : ℚ) : Pt :=
  ⟨(gridX - gridY) * (TILE_WIDTH / 2), (gridX + gridY) * (TILE_HEIGHT / 2)⟩

/-- `gridToScreen3D`: screen position with height offset. -/
def gridToScreen3D (gridX gridY height : ℚ) : Pt :=
  let p := gridToScreen gridX gridY
  ⟨p.x, p.y - height * HEIGHT_UNIT⟩

/-- The four cardinal track directions. -/
inductive TrackDirection
  | north
  | east
  | south
  | west
deriving DecidableEq

/-- x-components of the `DIRECTIONS` table. -/
def dirDx : TrackDirection → ℚ
  | .north => -0.7071
  | .east => 0.7071
  | .south => 0.7071
  | .west => -0.7071

/-- y-components of the `DIRECTIONS` table. -/
def dirDy : TrackDirection → ℚ
  | .north => -0.4243
  | .east => -0.4243
  | .south => 0.4243
  | .west => 0.4243

-- The edge-midpoint anchors computed identically at the top of
-- `drawStraightTrack` and `drawCurvedTrack` (origin `(startX, startY)`,
-- height offset `height * HEIGHT_UNIT` subtracted from y).
def northEdge (startX startY height : ℚ) : Pt :=
  ⟨startX + TILE_WIDTH * 0.25, startY + TILE_HEIGHT * 0.25 - height * HEIGHT_UNIT⟩

def eastEdge (startX startY height : ℚ) : Pt :=
  ⟨startX + TILE_WIDTH * 0.75, startY + TILE_HEIGHT * 0.25 - height * HEIGHT_UNIT⟩

def southEdge (startX startY height : ℚ) : Pt :=
  ⟨startX + TILE_WIDTH * 0.75, startY + TILE_HEIGHT * 0.75 - height * HEIGHT_UNIT⟩

def westEdge (startX startY height : ℚ) : Pt :=
  ⟨startX + TILE_WIDTH * 0.25, startY + TILE_HEIGHT * 0.75 - height * HEIGHT_UNIT⟩

def centerPt (startX startY height : ℚ) : Pt :=
  ⟨startX + TILE_WIDTH / 2, startY + TILE_HEIGHT / 2 - height * HEIGHT_UNIT⟩

/-- The edge-midpoint anchor lying on the tile boundary in a given
cardinal direction. -/
def dirEdge : TrackDirection → ℚ → ℚ → ℚ → Pt
  | .north => northEdge
  | .east => eastEdge
  | .south => southEdge
  | .west => westEdge

def oppositeDir : TrackDirection → TrackDirection
  | .north => .south
  | .south => .north
  | .east => .west
  | .west => .east

/-- Grid step to the adjacent cell in a given travel direction: the cell
whose `gridToScreen` origin is displaced along the screen-space
`DIRECTIONS` vector of that direction. -/
def gridStep : TrackDirection → ℚ × ℚ
  | .north => (-1, 0)
  | .south => (1, 0)
  | .east => (0, -1)
  | .west => (0, 1)

/-- Exit anchor of a segment traversed in direction `d`: the edge midpoint
on the boundary the track leaves through. -/
def exitAnchor (startX startY : ℚ) (d : TrackDirection) (height : ℚ) : Pt :=
  dirEdge d startX startY height

/-- Entry anchor of a segment traversed in direction `d`: the edge midpoint
on the boundary the track enters through (the side facing back along `d`). -/
def entryAnchor (startX startY : ℚ) (d : TrackDirection) (height : ℚ) : Pt :=
  dirEdge (oppositeDir d) startX startY height

-- Quadratic Bézier evaluation exactly as inlined in `drawCurvedTrack`.
def quadPoint (fromEdge center toEdge : Pt) (t : ℚ) : Pt :=
  let u := 1 - t
  ⟨u * u * fromEdge.x + 2 * u * t * center.x + t * t * toEdge.x,
   u * u * fromEdge.y + 2 * u * t * center.y + t * t * toEdge.y⟩

def quadTangent (fromEdge center toEdge : Pt) (t : ℚ) : Pt :=
  ⟨2 * (1 - t) * (center.x - fromEdge.x) + 2 * t * (toEdge.x - center.x),
   2 * (1 - t) * (center.y - fromEdge.y) + 2 * t * (toEdge.y - center.y)⟩

-- Real-number helpers for quantities the source obtains through
-- `Math.hypot` and `Math.sqrt`.
noncomputable def hypotR (a b : ℝ) : ℝ := Real.sqrt (a ^ 2 + b ^ 2)

def sqNormR (v : ℝ × ℝ) : ℝ := v.1 ^ 2 + v.2 ^ 2

-- `drawStraightTrack`: endpoint selection (N-S pair for north/south,
-- E-W pair otherwise).
def straightFromEdge (startX startY : ℚ) (d : TrackDirection) (height : ℚ) : Pt :=
  match d with
  | .north | .south => northEdge startX startY height
  | _ => eastEdge startX startY height

def straightToEdge (startX startY : ℚ) (d : TrackDirection) (height : ℚ) : Pt :=
  match d with
  | .north | .south => southEdge startX startY height
  | _ => westEdge startX startY height

/-- `drawStraightTrack`: the perpendicular, computed by normalising
`eastEdge - westEdge` (N-S track) or `southEdge - northEdge` (E-W track)
with `Math.hypot`. -/
noncomputable def straightPerp (startX startY : ℚ) (d : TrackDirection) (height : ℚ) :
    ℝ × ℝ :=
  match d with
  | .north | .south =>
    let e := eastEdge startX startY height
    let ww := westEdge startX startY height
    (((e.x - ww.x : ℚ) : ℝ) / hypotR ((e.x - ww.x : ℚ) : ℝ) ((e.y - ww.y : ℚ) : ℝ),
     ((e.y - ww.y : ℚ) : ℝ) / hypotR ((e.x - ww.x : ℚ) : ℝ) ((e.y - ww.y : ℚ) : ℝ))
  | _ =>
    let s := southEdge startX startY height
    let n := northEdge startX startY height
    (((s.x - n.x : ℚ) : ℝ) / hypotR ((s.x - n.x : ℚ) : ℝ) ((s.y - n.y : ℚ) : ℝ),
     ((s.y - n.y : ℚ) : ℝ) / hypotR ((s.x - n.x : ℚ) : ℝ) ((s.y - n.y : ℚ) : ℝ))

/-- `drawStraightTrack`: the "Left rail" stroke, from
`fromEdge - perp * railOffset` to `toEdge - perp * railOffset` with
`railOffset = TRACK_WIDTH / 2`. -/
noncomputable def straightLeftRail (startX startY : ℚ) (d : TrackDirection) (height : ℚ) :
    (ℝ × ℝ) × (ℝ × ℝ) :=
  let f := straightFromEdge startX startY d height
  let te := straightToEdge startX startY d height
  let p := straightPerp startX startY d height
  let railOffset : ℝ := (TRACK_WIDTH : ℝ) / 2
  (((f.x : ℝ) - p.1 * railOffset, (f.y : ℝ) - p.2 * railOffset),
   ((te.x : ℝ) - p.1 * railOffset, (te.y : ℝ) - p.2 * railOffset))

/-- `drawStraightTrack`: segment length `Math.hypot(toEdge - fromEdge)`. -/
noncomputable def straightLength (startX startY : ℚ) (d : TrackDirection) (height : ℚ) :
    ℝ :=
  let f := straightFromEdge startX startY d height
  let te := straightToEdge startX startY d height
  hypotR ((te.x - f.x : ℚ) : ℝ) ((te.y - f.y : ℚ) : ℝ)

/-- `drawStraightTrack`: `numTies = Math.max(3, Math.floor(length / TIE_SPACING))`. -/
noncomputable def straightNumTies (startX startY : ℚ) (d : TrackDirection) (height : ℚ) :
    ℤ :=
  max 3 ⌊straightLength startX startY d height / (TIE_SPACING : ℝ)⌋

/-- `drawStraightTrack`: the crosstie stroke for loop index `i`
(`t = i / numTies`, endpoints offset by the perpendicular times
`TIE_LENGTH / 2`). -/
noncomputable def straightTie (startX startY : ℚ) (d : TrackDirection) (height : ℚ)
    (i : ℕ) : (ℝ × ℝ) × (ℝ × ℝ) :=
  let f := straightFromEdge startX startY d height
  let te := straightToEdge startX startY d height
  let p := straightPerp startX startY d height
  let t : ℝ := (i : ℝ) / ((straightNumTies startX startY d height : ℤ) : ℝ)
  let tieX := (f.x : ℝ) + ((te.x - f.x : ℚ) : ℝ) * t
  let tieY := (f.y : ℝ) + ((te.y - f.y : ℚ) : ℝ) * t
  ((tieX - p.1 * (TIE_LENGTH : ℝ) / 2, tieY - p.2 * (TIE_LENGTH : ℝ) / 2),
   (tieX + p.1 * (TIE_LENGTH : ℝ) / 2, tieY + p.2 * (TIE_LENGTH : ℝ) / 2))

/-- `drawStraightTrack`: the full list of crosstie strokes; the loop runs
`for (i = 0; i <= numTies; i++)`, i.e. indices `0 .. numTies` inclusive. -/
noncomputable def straightTies (startX startY : ℚ) (d : TrackDirection) (height : ℚ) :
    List ((ℝ × ℝ) × (ℝ × ℝ)) :=
  (List.range ((straightNumTies startX startY d height).toNat + 1)).map
    (straightTie startX startY d height)

/-- Support visual style (`StrutStyle` from the types module). -/
inductive StrutStyle
  | wood
  | metal
deriving DecidableEq

/-- One invocation of `drawSupport`: the arguments a segment renderer
passes (x, ground-level y, height, optional lean/perpendicular vector,
style). -/
structure SupportCall where
  x : ℚ
  groundY : ℚ
  height : ℚ
  leanVec : Option (ℝ × ℝ)
  style : StrutStyle

/-- `drawWoodSupport` / `drawMetalSupport`: the lean vector actually used,
`(perp?.x ?? 1, perp?.y ?? 0)` — a caller-supplied vector with default
`(1, 0)`. -/
def supportPerpDefault : Option (ℝ × ℝ) → ℝ × ℝ
  | some p => (p.1, p.2)
  | none => (1, 0)

/-- `drawStraightTrack`: the `drawSupport` calls issued — one call at
`(center.x, center.y + heightOffset)` passing `{perpX, perpY}` when
`height > 0`, none otherwise. -/
noncomputable def straightSupportCalls (startX startY : ℚ) (d : TrackDirection)
    (height : ℚ) (strutStyle : StrutStyle) : List SupportCall :=
  if 0 < height then
    let c := centerPt startX startY height
    [⟨c.x, c.y + height * HEIGHT_UNIT, height,
      some (straightPerp startX startY d height), strutStyle⟩]
  else []

-- `drawCurvedTrack`: edge selection from the direction × turnRight lookup.
def curvedFromEdge (startX startY : ℚ) (startDir : TrackDirection) (turnRight : Bool)
    (height : ℚ) : Pt :=
  match startDir with
  | .north => northEdge startX startY height
  | .south => southEdge startX startY height
  | .east => eastEdge startX startY height
  | .west => westEdge startX startY height

def curvedToEdge (startX startY : ℚ) (startDir : TrackDirection) (turnRight : Bool)
    (height : ℚ) : Pt :=
  match startDir, turnRight with
  | .north, true => eastEdge startX startY height
  | .north, false => westEdge startX startY height
  | .south, true => westEdge startX startY height
  | .south, false => eastEdge startX startY height
  | .east, true => southEdge startX startY height
  | .east, false => northEdge startX startY height
  | .west, true => northEdge startX startY height
  | .west, false => southEdge startX startY height

/-- `drawCurvedTrack`: the curve midpoint computed inline with
`midT = 0.5` for support placement. -/
def curveMidPoint (startX startY : ℚ) (startDir : TrackDirection) (turnRight : Bool)
    (height : ℚ) : Pt :=
  let fromEdge := curvedFromEdge startX startY startDir turnRight height
  let toEdge := curvedToEdge startX startY startDir turnRight height
  let c := centerPt startX startY height
  let midT : ℚ := 0.5
  let u := 1 - midT
  ⟨u * u * fromEdge.x + 2 * u * midT * c.x + midT * midT * toEdge.x,
   u * u * fromEdge.y + 2 * u * midT * c.y + midT * midT * toEdge.y⟩

/-- `drawCurvedTrack`: the `drawSupport` calls issued — one call at the
curve midpoint passing `undefined` (no lean vector) when `height > 0`. -/
def curvedSupportCalls (startX startY : ℚ) (startDir : TrackDirection) (turnRight : Bool)
    (height : ℚ) (strutStyle : StrutStyle) : List SupportCall :=
  if 0 < height then
    let m := curveMidPoint startX startY startDir turnRight height
    [⟨m.x, m.y + height * HEIGHT_UNIT, height, none, strutStyle⟩]
  else []

/-- `drawCurvedTrack`: perpendicular at parameter `t` —
`len = Math.sqrt(tangent.x² + tangent.y²)`, `perp = (-tangent.y, tangent.x) / len`.
There is no fallback branch in the source; the division is performed
unconditionally. -/
noncomputable def quadPerp (fromEdge center toEdge : Pt) (t : ℚ) : ℝ × ℝ :=
  let tg := quadTangent fromEdge center toEdge t
  let len : ℝ := Real.sqrt ((tg.x : ℝ) * (tg.x : ℝ) + (tg.y : ℝ) * (tg.y : ℝ))
  (-(tg.y : ℝ) / len, (tg.x : ℝ) / len)

-- `drawLoopTrack`
noncomputable def loopRadius (loopHeight : ℚ) : ℝ :=
  max 28 ((loopHeight : ℝ) * (HEIGHT_UNIT : ℝ) * 0.4)

def numSegments : ℕ := 32

/-- `getLoopPoint` from `drawLoopTrack`: point of the loop circle at a
given angle, with rail offset perpendicular to the track direction. -/
noncomputable def getLoopPoint (startX startY : ℚ) (d : TrackDirection) (loopHeight : ℚ)
    (angle railSide : ℝ) : ℝ × ℝ :=
  let centerX : ℝ := ((startX + TILE_WIDTH / 2 : ℚ) : ℝ)
  let centerY : ℝ := ((startY + TILE_HEIGHT / 2 : ℚ) : ℝ)
  let forwardOffset := Real.sin angle * loopRadius loopHeight
  let heightOffset := (1 - Real.cos angle) * loopRadius loopHeight
  let baseX := centerX + (dirDx d : ℝ) * forwardOffset
  let baseY := centerY + (dirDy d : ℝ) * forwardOffset - heightOffset
  let railOffset : ℝ := (TRACK_WIDTH : ℝ) / 2
  let perpX := -(dirDy d : ℝ)
  let perpY := (dirDx d : ℝ)
  (baseX + perpX * railOffset * railSide, baseY + perpY * railOffset * railSide)

/-- `drawLoopTrack`: the `i`-th sampled rail point,
`angle = (i / numSegments) * Math.PI * 2` for `i = 0 .. numSegments`. -/
noncomputable def loopRailPoint (startX startY : ℚ) (d : TrackDirection) (loopHeight : ℚ)
    (railSide : ℝ) (i : ℕ) : ℝ × ℝ :=
  getLoopPoint startX startY d loopHeight
    ((i : ℝ) / (numSegments : ℝ) * (Real.pi * 2)) railSide

-- `drawChainLift`
/-- Truncation toward zero, the rounding used by the JS `%` operator. -/
def ratTrunc (q : ℚ) : ℤ := if 0 ≤ q then ⌊q⌋ else ⌈q⌉

/-- The JS remainder `a % b` (truncated-division remainder). -/
def jsMod (a b : ℚ) : ℚ := a - b * (ratTrunc (a / b) : ℚ)

def chainLength : ℚ := TILE_WIDTH * 0.7

def linkSpacing : ℚ := 4

/-- `drawChainLift`: `numLinks = Math.floor(length / linkSpacing)`. -/
def chainNumLinks : ℤ := ⌊chainLength / linkSpacing⌋

/-- `drawChainLift`: `animOffset = tickOffset % linkSpacing`. -/
def chainAnimOffset (tickOffset : ℚ) : ℚ := jsMod tickOffset linkSpacing

/-- `drawChainLift`: interpolation parameter of link `i`,
`t = (i * linkSpacing + animOffset) / length`. -/
def chainT (tickOffset : ℚ) (i : ℕ) : ℚ :=
  ((i : ℚ) * linkSpacing + chainAnimOffset tickOffset) / chainLength

/-- `drawChainLift`: the list of link positions actually drawn — the loop
runs `i = 0 .. numLinks`, skips `t > 1`, and interpolates between the two
height-adjusted endpoints of the fixed-length chain segment. -/
def chainLinkPositions (startX startY : ℚ) (d : TrackDirection)
    (startHeight endHeight tickOffset : ℚ) : List Pt :=
  let centerX := startX + TILE_WIDTH / 2
  let centerY := startY + TILE_HEIGHT / 2
  let halfLen := chainLength / 2
  let x1 := centerX - dirDx d * halfLen
  let y1 := centerY - dirDy d * halfLen - startHeight * HEIGHT_UNIT
  let x2 := centerX + dirDx d * halfLen
  let y2 := centerY + dirDy d * halfLen - endHeight * HEIGHT_UNIT
  (List.range (chainNumLinks.toNat + 1)).filterMap fun i =>
    let t := chainT tickOffset i
    if 1 < t then none
    else some ⟨x1 + (x2 - x1) * t, y1 + (y2 - y1) * t⟩

/-- C1: Edge continuity.  For every direction `d` and every common height,
the exit anchor of the tile at grid cell `(gx, gy)` (tile origin from
`gridToScreen`) coincides exactly with the entry anchor of the tile at the
next cell in that direction.  Exact rational equality implies equality
within any floating-point tolerance. -/
theorem edge_continuity (gx gy height : ℚ) (d : TrackDirection) :
    exitAnchor (gridToScreen gx gy).x (gridToScreen gx gy).y d height =
      entryAnchor (gridToScreen (gx + (gridStep d).1) (gy + (gridStep d).2)).x
        (gridToScreen (gx + (gridStep d).1) (gy + (gridStep d).2)).y d height := by
  cases d <;>
    simp only [exitAnchor, entryAnchor, gridStep, oppositeDir, dirEdge, gridToScreen,
      northEdge, eastEdge, southEdge, westEdge, TILE_WIDTH, TILE_HEIGHT, heightRatio,
      HEIGHT_UNIT, Pt.mk.injEq] <;>
    constructor <;> ring

/-- C7: Quadratic curve endpoint exactness.  For all control points, the
quadratic Bézier point formula used by `drawCurvedTrack` returns the start
control point at `t = 0` and the end control point at `t = 1`, exactly. -/
theorem quad_endpoint_exact (p0 p1 p2 : Pt) :
    quadPoint p0 p1 p2 0 = p0 ∧ quadPoint p0 p1 p2 1 = p2 := by
  cases p0
  cases p2
  refine ⟨?_, ?_⟩ <;>
    simp only [quadPoint, Pt.mk.injEq] <;> constructor <;> ring

-- Helper lemmas about the JS remainder on nonnegative arguments.
lemma jsMod_eq_floor (a b : ℚ) (ha : 0 ≤ a) (hb : 0 < b) :
    jsMod a b = a - b * (⌊a / b⌋ : ℚ) := by
  unfold jsMod ratTrunc
  rw [if_pos (div_nonneg ha hb.le)]

lemma jsMod_nonneg (a b : ℚ) (ha : 0 ≤ a) (hb : 0 < b) : 0 ≤ jsMod a b := by
  rw [jsMod_eq_floor a b ha hb]
  have hfl : ((⌊a / b⌋ : ℤ) : ℚ) ≤ a / b := Int.floor_le _
  have hmul : a / b * b = a := div_mul_cancel₀ a hb.ne'
  nlinarith

lemma jsMod_add_int_mul (a b : ℚ) (k : ℤ) (ha : 0 ≤ a) (hak : 0 ≤ a + b * (k : ℚ))
    (hb : 0 < b) : jsMod (a + b * (k : ℚ)) b = jsMod a b := by
  rw [jsMod_eq_floor _ b hak hb, jsMod_eq_floor a b ha hb]
  have hdiv : (a + b * (k : ℚ)) / b = a / b + (k : ℚ) := by
    field_simp
    ring
  rw [hdiv, Int.floor_add_int]
  push_cast
  ring

/-- C9: Chain-lift phase wrap.  For nonnegative tick values, adding any
integer multiple of `linkSpacing` to `tickOffset` leaves the list of drawn
link positions of `drawChainLift` unchanged; in particular `tickOffset = 4`
(one full link-spacing period) produces the same links as `tickOffset = 0`. -/
theorem chain_phase_wrap (startX startY : ℚ) (d : TrackDirection)
    (startHeight endHeight tickOffset : ℚ) (k : ℤ) (h0 : 0 ≤ tickOffset)
    (h1 : 0 ≤ tickOffset + linkSpacing * (k : ℚ)) :
    chainLinkPositions startX startY d startHeight endHeight
        (tickOffset + linkSpacing * (k : ℚ)) =
      chainLinkPositions startX startY d startHeight endHeight tickOffset := by
  have hls : (0 : ℚ) < linkSpacing := by norm_num [linkSpacing]
  have hmod : chainAnimOffset (tickOffset + linkSpacing * (k : ℚ)) =
      chainAnimOffset tickOffset := by
    unfold chainAnimOffset
    exact jsMod_add_int_mul tickOffset linkSpacing k h0 h1 hls
  unfold chainLinkPositions chainT
  rw [hmod]

/-- Witness for C9: concrete scenario `tickOffset = 0` versus
`tickOffset = 0 + linkSpacing * 1 = 4`, southbound lift-hill segment. -/
theorem chain_phase_wrap_witness :
    (0 : ℚ) ≤ 0 ∧ (0 : ℚ) ≤ 0 + linkSpacing * ((1 : ℤ) : ℚ) ∧
      chainLinkPositions 0 0 TrackDirection.south 0 1
          (0 + linkSpacing * ((1 : ℤ) : ℚ)) =
        chainLinkPositions 0 0 TrackDirection.south 0 1 0 :=
  ⟨le_refl 0, by norm_num [linkSpacing],
    chain_phase_wrap 0 0 TrackDirection.south 0 1 0 1 (le_refl 0)
      (by norm_num [linkSpacing])⟩

/-- C10: Every chain link actually drawn lies on the chain segment.  For
`tickOffset ≥ 0` and any loop index `i ≤ numLinks` that passes the
`t > 1` guard, the interpolation parameter satisfies `0 ≤ t ≤ 1`. -/
theorem chain_link_on_segment (tickOffset : ℚ) (i : ℕ) (h0 : 0 ≤ tickOffset)
    (hi : (i : ℤ) ≤ chainNumLinks) (hdraw : ¬ 1 < chainT tickOffset i) :
    0 ≤ chainT tickOffset i ∧ chainT tickOffset i ≤ 1 := by
  refine ⟨?_, not_lt.mp hdraw⟩
  have hls : (0 : ℚ) < linkSpacing := by norm_num [linkSpacing]
  have hanim : 0 ≤ chainAnimOffset tickOffset :=
    jsMod_nonneg tickOffset linkSpacing h0 hls
  unfold chainT
  apply div_nonneg
  · have hterm : 0 ≤ (i : ℚ) * linkSpacing :=
      mul_nonneg (Nat.cast_nonneg i) hls.le
    linarith
  · norm_num [chainLength, TILE_WIDTH]

/-- Witness for C10: `tickOffset = 0`, link index `0` is drawn and its
parameter is `0 ∈ [0, 1]`. -/
theorem chain_link_on_segment_witness :
    (0 : ℚ) ≤ 0 ∧ ((0 : ℕ) : ℤ) ≤ chainNumLinks ∧ ¬ 1 < chainT 0 0 ∧
      (0 ≤ chainT 0 0 ∧ chainT 0 0 ≤ 1) :=
  ⟨le_refl 0,
    by norm_num [chainNumLinks, chainLength, linkSpacing, TILE_WIDTH],
    by norm_num [chainT, chainAnimOffset, jsMod, ratTrunc, chainLength, linkSpacing,
      TILE_WIDTH],
    chain_link_on_segment 0 0 (le_refl 0)
      (by norm_num [chainNumLinks, chainLength, linkSpacing, TILE_WIDTH])
      (by norm_num [chainT, chainAnimOffset, jsMod, ratTrunc, chainLength, linkSpacing,
        TILE_WIDTH])⟩

/-- C5 counterexample: `drawCurvedTrack`, elevated at the origin tile
(north entry, right turn, height 1, metal struts), issues its
`drawSupport` call with `undefined` for the lean direction — the
argument list records no perpendicular at all, which is not the
ground-plane perpendicular the claim requires. -/
theorem curved_support_perp_counterexample :
    (curvedSupportCalls 0 0 TrackDirection.north true 1 StrutStyle.metal).map
        SupportCall.leanVec = [none] ∧
      ([(none : Option (ℝ × ℝ))] ≠
        [some (straightPerp 0 0 TrackDirection.north 1)]) := by
  constructor
  · norm_num [curvedSupportCalls]
  · simp

/-- C5 amended: for every elevated segment, `drawStraightTrack` delegates
to `drawSupport` at the geometric midpoint of its path (the average of its
edge anchors, at ground level) and passes the ground-plane perpendicular,
while `drawCurvedTrack` delegates at the quadratic-curve midpoint
(`t = 1/2`) but passes no lean direction (`undefined`), so `drawSupport`
falls back to its default `(1, 0)`. -/
theorem support_midpoint_amended (startX startY : ℚ) (d : TrackDirection)
    (turnRight : Bool) (height : ℚ) (strutStyle : StrutStyle) (hpos : 0 < height) :
    straightSupportCalls startX startY d height strutStyle =
      [⟨((straightFromEdge startX startY d height).x +
            (straightToEdge startX startY d height).x) / 2,
        ((straightFromEdge startX startY d height).y +
            (straightToEdge startX startY d height).y) / 2 + height * HEIGHT_UNIT,
        height, some (straightPerp startX startY d height), strutStyle⟩] ∧
      curvedSupportCalls startX startY d turnRight height strutStyle =
        [⟨(quadPoint (curvedFromEdge startX startY d turnRight height)
              (centerPt startX startY height)
              (curvedToEdge startX startY d turnRight height) (1 / 2)).x,
          (quadPoint (curvedFromEdge startX startY d turnRight height)
              (centerPt startX startY height)
              (curvedToEdge startX startY d turnRight height) (1 / 2)).y +
            height * HEIGHT_UNIT,
          height, none, strutStyle⟩] := by
  constructor
  · unfold straightSupportCalls
    rw [if_pos hpos]
    cases d <;>
      simp only [straightFromEdge, straightToEdge, centerPt, northEdge, southEdge,
        eastEdge, westEdge, TILE_WIDTH, TILE_HEIGHT, heightRatio, HEIGHT_UNIT,
        List.cons.injEq, and_true, SupportCall.mk.injEq, true_and, and_self,
        Option.some.injEq] <;>
      and_intros <;> first | rfl | ring
  · unfold curvedSupportCalls
    rw [if_pos hpos]
    simp only [curveMidPoint, quadPoint, List.cons.injEq, and_true,
      SupportCall.mk.injEq, true_and, and_self]
    and_intros <;> first | rfl | ring

/-- Witness for C5 amended: at height 1 both renderers issue exactly one
support call. -/
theorem support_midpoint_amended_witness :
    (0 : ℚ) < 1 ∧
      straightSupportCalls 0 0 TrackDirection.north 1 StrutStyle.metal ≠ [] ∧
      curvedSupportCalls 0 0 TrackDirection.north true 1 StrutStyle.metal ≠ [] := by
  have h := support_midpoint_amended 0 0 TrackDirection.north true 1 StrutStyle.metal
    (by norm_num)
  exact ⟨by norm_num, by rw [h.1]; simp, by rw [h.2]; simp⟩

-- Helper: every control-point configuration produced by the
-- direction × turnRight lookup of `drawCurvedTrack` has a nowhere-zero
-- quadratic tangent (one component is a nonzero constant).
lemma curvedTangent_ne_zero (startX startY : ℚ) (d : TrackDirection) (turnRight : Bool)
    (height t : ℚ) :
    quadTangent (curvedFromEdge startX startY d turnRight height)
        (centerPt startX startY height)
        (curvedToEdge startX startY d turnRight height) t ≠ ⟨0, 0⟩ := by
  cases d <;> cases turnRight <;>
    · intro hzero
      have hx := congrArg Pt.x hzero
      have hy := congrArg Pt.y hzero
      simp only [quadTangent, curvedFromEdge, curvedToEdge, centerPt, northEdge,
        eastEdge, southEdge, westEdge, TILE_WIDTH, TILE_HEIGHT, heightRatio,
        HEIGHT_UNIT] at hx hy
      ring_nf at hx hy
      norm_num at hx hy

-- Helper: whenever the quadratic tangent is nonzero, the perpendicular
-- computed by `drawCurvedTrack` has squared norm exactly 1.
lemma quadPerp_sqNorm (f c te : Pt) (t : ℚ)
    (h : quadTangent f c te t ≠ ⟨0, 0⟩) : sqNormR (quadPerp f c te t) = 1 := by
  rcases hq : quadTangent f c te t with ⟨tx, ty⟩
  have hs : (0 : ℝ) < (tx : ℝ) * (tx : ℝ) + (ty : ℝ) * (ty : ℝ) := by
    by_cases hx : tx = 0
    · have hy : ty ≠ 0 := by
        intro hy0
        exact h (by rw [hq, hx, hy0])
      have hyr : ((ty : ℝ)) ≠ 0 := by exact_mod_cast hy
      nlinarith [mul_self_pos.mpr hyr, mul_self_nonneg ((tx : ℝ))]
    · have hxr : ((tx : ℝ)) ≠ 0 := by exact_mod_cast hx
      nlinarith [mul_self_pos.mpr hxr, mul_self_nonneg ((ty : ℝ))]
  have hroot : Real.sqrt ((tx : ℝ) * (tx : ℝ) + (ty : ℝ) * (ty : ℝ)) ≠ 0 :=
    (Real.sqrt_pos.mpr hs).ne'
  have hsq : Real.sqrt ((tx : ℝ) * (tx : ℝ) + (ty : ℝ) * (ty : ℝ)) ^ 2 =
      (tx : ℝ) * (tx : ℝ) + (ty : ℝ) * (ty : ℝ) := Real.sq_sqrt hs.le
  simp only [quadPerp, sqNormR, hq]
  field_simp
  ring

/-- C3 counterexample: at the degenerate configuration
`from = center = to = (0, 0)` the tangent used by `drawCurvedTrack` is the
zero vector, its length is 0, and the perpendicular is computed anyway by
dividing by that zero length (yielding the zero vector under
division-by-zero semantics, NaN in JS) — no caller-supplied or default
fallback vector such as `drawSupport`'s `(1, 0)` is substituted. -/
theorem degenerate_perp_counterexample :
    quadTangent ⟨0, 0⟩ ⟨0, 0⟩ ⟨0, 0⟩ (1 / 2) = ⟨0, 0⟩ ∧
      quadPerp ⟨0, 0⟩ ⟨0, 0⟩ ⟨0, 0⟩ (1 / 2) = (0, 0) ∧
      quadPerp ⟨0, 0⟩ ⟨0, 0⟩ ⟨0, 0⟩ (1 / 2) ≠ supportPerpDefault none := by
  have h1 : quadTangent (⟨0, 0⟩ : Pt) ⟨0, 0⟩ ⟨0, 0⟩ (1 / 2) = ⟨0, 0⟩ := by
    simp [quadTangent]
  have h2 : quadPerp (⟨0, 0⟩ : Pt) ⟨0, 0⟩ ⟨0, 0⟩ (1 / 2) = (0, 0) := by
    simp only [quadPerp]
    rw [h1]
    simp
  refine ⟨h1, h2, ?_⟩
  rw [h2]
  simp only [supportPerpDefault]
  intro hcontra
  have hfst := congrArg Prod.fst hcontra
  norm_num at hfst

/-- C3 amended: the perpendicular computation of `drawCurvedTrack` has no
fallback branch; instead, division by a zero tangent length never happens
on the renderer's own inputs because every direction × turnRight lookup
configuration yields a tangent that is nonzero at every parameter `t`.
The caller-supplied-or-default fallback vector exists only in
`drawSupport`, whose lean direction defaults to `(1, 0)`. -/
theorem curved_perp_no_zero_division_amended (startX startY : ℚ) (d : TrackDirection)
    (turnRight : Bool) (height t : ℚ) :
    quadTangent (curvedFromEdge startX startY d turnRight height)
        (centerPt startX startY height)
        (curvedToEdge startX startY d turnRight height) t ≠ ⟨0, 0⟩ ∧
      supportPerpDefault none = (1, 0) :=
  ⟨curvedTangent_ne_zero startX startY d turnRight height t, rfl⟩

/-- C6 counterexample: the inequalities `from ≠ to`, `center ≠ from`,
`center ≠ to` do not rule out a vanishing tangent — with collinear control
points `(0,0)`, `(1,0)`, `(-2,0)` all three inequalities hold, yet at the
sampled parameter `t = 4/16` the tangent vanishes and the computed
perpendicular is the zero vector (squared norm 0, not within any tolerance
of unit length). -/
theorem perp_unit_counterexample :
    (⟨0, 0⟩ : Pt) ≠ ⟨-2, 0⟩ ∧ (⟨1, 0⟩ : Pt) ≠ ⟨0, 0⟩ ∧ (⟨1, 0⟩ : Pt) ≠ ⟨-2, 0⟩ ∧
      quadTangent ⟨0, 0⟩ ⟨1, 0⟩ ⟨-2, 0⟩ (4 / 16) = ⟨0, 0⟩ ∧
      sqNormR (quadPerp ⟨0, 0⟩ ⟨1, 0⟩ ⟨-2, 0⟩ (4 / 16)) = 0 := by
  have ht : quadTangent (⟨0, 0⟩ : Pt) ⟨1, 0⟩ ⟨-2, 0⟩ (4 / 16) = ⟨0, 0⟩ := by
    simp only [quadTangent, Pt.mk.injEq]
    norm_num
  have hp : quadPerp (⟨0, 0⟩ : Pt) ⟨1, 0⟩ ⟨-2, 0⟩ (4 / 16) = (0, 0) := by
    simp only [quadPerp]
    rw [ht]
    simp
  refine ⟨by decide, by decide, by decide, ht, ?_⟩
  rw [hp]
  simp [sqNormR]

/-- C6 amended: for every control-point configuration actually produced by
the direction × turnRight lookup of `drawCurvedTrack`, the perpendicular
computed at every parameter `t` (in particular at every sampled `t = i/16`
and `t = i/4`) has squared norm exactly 1, i.e. unit length. -/
theorem perp_unit_amended (startX startY : ℚ) (d : TrackDirection) (turnRight : Bool)
    (height t : ℚ) :
    sqNormR (quadPerp (curvedFromEdge startX startY d turnRight height)
        (centerPt startX startY height)
        (curvedToEdge startX startY d turnRight height) t) = 1 :=
  quadPerp_sqNorm _ _ _ _ (curvedTangent_ne_zero startX startY d turnRight height t)

-- Helper: the perpendicular offset cancels in the difference of the two
-- left-rail endpoints, so the y-extent of the left rail equals the
-- y-extent of the edge anchors (19.2 = 96/5) with no square root left.
lemma straightLeftRail_y_diff :
    (straightLeftRail 0 0 TrackDirection.south 0).2.2 -
      (straightLeftRail 0 0 TrackDirection.south 0).1.2 = 96 / 5 := by
  unfold straightLeftRail
  simp only [straightFromEdge, straightToEdge, northEdge, southEdge, TILE_WIDTH,
    TILE_HEIGHT, heightRatio, HEIGHT_UNIT, TRACK_WIDTH]
  push_cast
  ring_nf

/-- C2 counterexample: the left rail claimed by the spec would run from
(20, 13.6) to (52, 28.4), a y-extent of 14.8; but the left rail computed by
`drawStraightTrack` at origin (0,0), direction south, height 0 has y-extent
28.8 − 9.6 = 19.2 (the perpendicular offset cancels), so its endpoints
cannot be the claimed pair.  (The spec also misstates the south edge
midpoint, which is (48, 28.8), not (48, 24.4).) -/
theorem straight_left_rail_counterexample :
    ¬ ((straightLeftRail 0 0 TrackDirection.south 0).1 = ((20 : ℝ), (68 / 5 : ℝ)) ∧
        (straightLeftRail 0 0 TrackDirection.south 0).2 = ((52 : ℝ), (142 / 5 : ℝ))) := by
  rintro ⟨h1, h2⟩
  have hy1 := congrArg Prod.snd h1
  have hy2 := congrArg Prod.snd h2
  simp only at hy1 hy2
  have hd := straightLeftRail_y_diff
  rw [hy1, hy2] at hd
  norm_num at hd

/-- C2 amended: for `drawStraightTrack` at origin (0,0), direction south,
height 0 on the 64-wide/38.4-tall tile, the left rail stroke runs from the
north edge midpoint (16, 9.6) to the south edge midpoint (48, 28.8), each
offset by −4 · perp where perp = (32, −19.2)/‖(32, −19.2)‖ is
eastEdge − westEdge normalised (‖(32, −19.2)‖ = √(34816/25) ≈ 37.32). -/
theorem straight_left_rail_amended :
    straightLeftRail 0 0 TrackDirection.south 0 =
      ((16 - 128 / Real.sqrt (34816 / 25), 48 / 5 + 384 / 5 / Real.sqrt (34816 / 25)),
       (48 - 128 / Real.sqrt (34816 / 25),
        144 / 5 + 384 / 5 / Real.sqrt (34816 / 25))) := by
  unfold straightLeftRail straightPerp hypotR
  simp only [straightFromEdge, straightToEdge, northEdge, southEdge, eastEdge,
    westEdge, TILE_WIDTH, TILE_HEIGHT, heightRatio, HEIGHT_UNIT, TRACK_WIDTH,
    Prod.mk.injEq]
  norm_num
  and_intros <;> ring

-- Helper: the straight-segment screen length is √(34816/25) for every
-- direction, origin and height (the anchor differences are (±32, 19.2)).
lemma straightLength_eq (startX startY : ℚ) (d : TrackDirection) (height : ℚ) :
    straightLength startX startY d height = Real.sqrt (34816 / 25) := by
  cases d <;>
    · unfold straightLength hypotR
      simp only [straightFromEdge, straightToEdge, northEdge, southEdge, eastEdge,
        westEdge, TILE_WIDTH, TILE_HEIGHT, heightRatio, HEIGHT_UNIT]
      norm_num

lemma sqrt_34816_div8_floor : ⌊Real.sqrt (34816 / 25) / 8⌋ = (4 : ℤ) := by
  have hlow : (32 : ℝ) ≤ Real.sqrt (34816 / 25) := by
    have h32 : (32 : ℝ) = Real.sqrt 1024 := by
      rw [show (1024 : ℝ) = 32 ^ 2 by norm_num, Real.sqrt_sq (by norm_num : (0:ℝ) ≤ 32)]
    rw [h32]
    exact Real.sqrt_le_sqrt (by norm_num)
  have hhigh : Real.sqrt (34816 / 25) < 40 := by
    have h40 : (40 : ℝ) = Real.sqrt 1600 := by
      rw [show (1600 : ℝ) = 40 ^ 2 by norm_num, Real.sqrt_sq (by norm_num : (0:ℝ) ≤ 40)]
    rw [h40]
    exact Real.sqrt_lt_sqrt (by norm_num) (by norm_num)
  rw [Int.floor_eq_iff]
  constructor
  · push_cast
    linarith
  · push_cast
    linarith

lemma straightNumTies_eq (startX startY : ℚ) (d : TrackDirection) (height : ℚ) :
    straightNumTies startX startY d height = 4 := by
  unfold straightNumTies
  rw [straightLength_eq]
  have hcast : ((TIE_SPACING : ℚ) : ℝ) = 8 := by norm_num [TIE_SPACING]
  rw [hcast, sqrt_34816_div8_floor]
  norm_num

/-- C4 counterexample: for the straight segment at origin (0,0), direction
south, height 0, the renderer draws 5 crosstie strokes (its loop runs from
0 to numTies inclusive), while max(3, ⌊length/TIE_SPACING⌋) = max(3, 4) = 4
— one fewer than the actual stroke count. -/
theorem straight_tie_count_counterexample :
    (straightTies 0 0 TrackDirection.south 0).length = 5 ∧
      max 3 ⌊straightLength 0 0 TrackDirection.south 0 / (TIE_SPACING : ℝ)⌋ = 4 := by
  have h4 := straightNumTies_eq 0 0 TrackDirection.south 0
  constructor
  · unfold straightTies
    rw [h4]
    simp
  · unfold straightNumTies at h4
    exact h4

/-- C4 amended: for every straight segment the number of crosstie strokes
drawn by `drawStraightTrack` equals max(3, ⌊segmentLength/TIE_SPACING⌋) + 1
(the tie loop is inclusive of both endpoints), which evaluates to 5 for
every direction, origin and height. -/
theorem straight_tie_count_amended (startX startY : ℚ) (d : TrackDirection)
    (height : ℚ) :
    (straightTies startX startY d height).length =
      (max 3 ⌊straightLength startX startY d height / (TIE_SPACING : ℝ)⌋).toNat + 1 ∧
      (straightTies startX startY d height).length = 5 := by
  have h4 := straightNumTies_eq startX startY d height
  constructor
  · unfold straightTies straightNumTies
    simp
  · unfold straightTies
    rw [h4]
    simp

/-- C8: Loop closure.  For every origin, direction, loop height (hence
radius max(28, loopHeight·HEIGHT_UNIT·0.4)) and rail side, the first
sampled rail point (angle 0) of `drawLoopTrack` coincides with the last
sampled rail point (angle 2π): each rail polyline is closed. -/
theorem loop_closure (startX startY : ℚ) (d : TrackDirection) (loopHeight : ℚ)
    (railSide : ℝ) :
    loopRailPoint startX startY d loopHeight railSide 0 =
      loopRailPoint startX startY d loopHeight railSide numSegments := by
  unfold loopRailPoint getLoopPoint numSegments
  have hz : ((0 : ℕ) : ℝ) / ((32 : ℕ) : ℝ) * (Real.pi * 2) = 0 := by
    push_cast
    ring
  have ho : ((32 : ℕ) : ℝ) / ((32 : ℕ) : ℝ) * (Real.pi * 2) = 2 * Real.pi := by
    push_cast
    norm_num
    ring
  rw [hz, ho]
  simp [Real.sin_zero, Real.cos_zero, Real.sin_two_pi, Real.cos_two_pi]

end IsoCoaster
